import Mathlib

/-!
Shallow embedding of the CORDIS dashboard's data pipeline (src/cordis.py):
text-cell parsing, row normalization (dates, start year, monetary coercion),
sidebar filter application, project-level aggregation, and the per-tab
group-by summaries (yearly funding, role distribution, geolocation split).

Cells are modelled by their textual rendering: the script's monetary loop
applies `astype(str)` before any rewrite, so every cell reaches the parsers
as a string; missing cells are `Option.none`.
-/

namespace Cordis

/-! ### Decimal parsing (model of pandas `to_numeric(errors='coerce')` on
plain decimal notation: optional sign, digits, at most one dot). -/

def digitVal (c : Char) : ℕ := c.toNat - 48

def natOfDigits (l : List Char) : ℕ := l.foldl (fun a c => 10 * a + digitVal c) 0

def allDigits (l : List Char) : Bool := l.all Char.isDigit

/-- Unsigned decimal: `ip` is everything before the first dot, `fp` after it.
A second dot lands inside `fp` and fails the digit test, so such strings are
rejected, exactly as `float()` rejects them. -/
def parseUnsigned (cs : List Char) : Option ℚ :=
  let ip := cs.takeWhile (· ≠ '.')
  match cs.dropWhile (· ≠ '.') with
  | [] => if !ip.isEmpty && allDigits ip then some (natOfDigits ip) else none
  | _ :: fp =>
    if (!ip.isEmpty || !fp.isEmpty) && allDigits ip && allDigits fp then
      some ((natOfDigits ip : ℚ) + (natOfDigits fp : ℚ) / 10 ^ fp.length)
    else none

def parseDecChars (cs : List Char) : Option ℚ :=
  match cs with
  | '-' :: t => (parseUnsigned t).map (fun q => -q)
  | '+' :: t => parseUnsigned t
  | _ => parseUnsigned cs

def parseDecStr (s : String) : Option ℚ := parseDecChars s.data

/-! ### Monetary coercion, src/cordis.py lines 41-48:
`str.replace('.', '')` then `str.replace(',', '.')` then `to_numeric`. -/

def removeDots (cs : List Char) : List Char := cs.filter (· ≠ '.')

def commaToDot (cs : List Char) : List Char := cs.map fun c => if c = ',' then '.' else c

def moneyParse (s : String) : Option ℚ := parseDecChars (commaToDot (removeDots s.data))

/-! ### Dates. `pd.to_datetime(errors='coerce')` is external library code;
it is modelled on its ISO `yyyy-mm-dd` behaviour, which is the only date
shape the verified properties exercise; anything else coerces to missing. -/

structure Date where
  y : ℕ
  m : ℕ
  d : ℕ
deriving DecidableEq

/-- Comparison key: lexicographic on (year, month, day) for in-range dates. -/
def Date.key (dt : Date) : ℕ := dt.y * 10000 + dt.m * 100 + dt.d

/-- Split a character list at every occurrence of `sep` (pandas
`str.split(sep)` with no limit). -/
def splitChar (sep : Char) : List Char → List (List Char)
  | [] => [[]]
  | c :: t =>
    match splitChar sep t with
    | [] => [[]]
    | h :: r => if c = sep then [] :: h :: r else (c :: h) :: r

def parseDate (s : String) : Option Date :=
  match splitChar '-' s.data with
  | [a, b, c] =>
    if allDigits a && allDigits b && allDigits c
        && !a.isEmpty && !b.isEmpty && !c.isEmpty then
      if 1 ≤ natOfDigits b ∧ natOfDigits b ≤ 12 ∧ 1 ≤ natOfDigits c ∧ natOfDigits c ≤ 31 then
        some ⟨natOfDigits a, natOfDigits b, natOfDigits c⟩
      else none
    else none
  | _ => none

/-! ### Rows. `Raw` is one (project, participant) row as read from the
spreadsheet, cells as text (`id` cells are numeric in the source file).
`Norm` is the row after the preprocessing block, lines 38-48. -/

structure Raw where
  id : Option ℕ
  title : Option String
  startdate : Option String
  enddate : Option String
  totalcost_project : Option String
  ecmaxcontribution : Option String
  eccontribution : Option String
  neteccontribution : Option String
  status : Option String
  role : Option String
  legalbasis : Option String
  name : Option String
  city : Option String
  acronym : Option String
  categorie_principale : Option String
  sous_categorie : Option String
  geolocation : Option String
deriving DecidableEq

structure Norm where
  id : Option ℕ
  title : Option String
  startdate : Option Date
  enddate : Option Date
  totalcost_project : Option ℚ
  ecmaxcontribution : Option ℚ
  eccontribution : Option ℚ
  neteccontribution : Option ℚ
  status : Option String
  role : Option String
  legalbasis : Option String
  name : Option String
  city : Option String
  acronym : Option String
  categorie_principale : Option String
  sous_categorie : Option String
  geolocation : Option String
deriving DecidableEq

/-- Preprocessing of one row, src/cordis.py lines 38-48: date coercion on
`startdate`/`enddate`, monetary coercion on the four monetary columns;
every other cell passes through unchanged. -/
def normalizeRow (r : Raw) : Norm where
  id := r.id
  title := r.title
  startdate := r.startdate.bind parseDate
  enddate := r.enddate.bind parseDate
  totalcost_project := r.totalcost_project.bind moneyParse
  ecmaxcontribution := r.ecmaxcontribution.bind moneyParse
  eccontribution := r.eccontribution.bind moneyParse
  neteccontribution := r.neteccontribution.bind moneyParse
  status := r.status
  role := r.role
  legalbasis := r.legalbasis
  name := r.name
  city := r.city
  acronym := r.acronym
  categorie_principale := r.categorie_principale
  sous_categorie := r.sous_categorie
  geolocation := r.geolocation

def normalize (rs : List Raw) : List Norm := rs.map normalizeRow

/-- Line 40: `df['startyear'] = df['startdate'].dt.year`. -/
def Norm.startyear (r : Norm) : Option ℕ := r.startdate.map Date.y

/-! ### Geolocation split, src/cordis.py lines 292-295:
`coords = df_filtered['geolocation'].str.split(',', expand=True)`,
`lat = to_numeric(coords[0])`, `lon = to_numeric(coords[1])`.
`str.split` with no limit splits at every comma; `coords[i]` is the i-th
fragment when the cell has one, else missing. -/

def geoParts (s : String) : List String := (splitChar ',' s.data).map fun l => String.mk l

def coordFrag (g : Option String) (i : ℕ) : Option String := g.bind fun s => (geoParts s).get? i

def latOf (g : Option String) : Option ℚ := (coordFrag g 0).bind parseDecStr

def lonOf (g : Option String) : Option ℚ := (coordFrag g 1).bind parseDecStr

/-- The text strictly before the first comma of `s`. -/
def beforeFirstComma (s : String) : String := String.mk (s.data.takeWhile (· ≠ ','))

/-- The text strictly after the first comma of `s` (missing when `s` has no
comma): the fragment the specification assigns to `lon`. -/
def afterFirstComma (s : String) : Option String :=
  match s.data.dropWhile (· ≠ ',') with
  | [] => none
  | _ :: t => some (String.mk t)

/-- The text between the first and second commas of `s` (missing when `s`
has no comma): the fragment the code actually assigns to `lon`. -/
def betweenCommas (s : String) : Option String :=
  match s.data.dropWhile (· ≠ ',') with
  | [] => none
  | _ :: t => some (String.mk (t.takeWhile (· ≠ ',')))

/-! ### Sidebar filters, src/cordis.py lines 52-77. Each dimension holds the
multiselect's chosen values; an empty selection leaves the table untouched,
a non-empty one keeps the rows whose cell `isin` the selection. -/

structure FilterSet where
  status : List String
  year : List ℕ
  role : List String
  legalbasis : List String
  name : List String
  city : List String
  acronym : List String
  categorie_principale : List String
  sous_categorie : List String
deriving DecidableEq

def emptyFilters : FilterSet := ⟨[], [], [], [], [], [], [], [], []⟩

def statusOnly (v : String) : FilterSet := ⟨[v], [], [], [], [], [], [], [], []⟩

/-- Model of `Series.isin(sel)` on one cell: a missing cell matches nothing. -/
def memBool [DecidableEq α] (v : Option α) (sel : List α) : Bool :=
  match v with
  | some x => decide (x ∈ sel)
  | none => false

/-- One pass of the loop at lines 74-77: `if v:` then
`df_filtered = df_filtered[df_filtered[key].isin(v)]`. -/
def applyOne [DecidableEq α] (get : Norm → Option α) (sel : List α)
    (rows : List Norm) : List Norm :=
  if sel = [] then rows else rows.filter fun r => memBool (get r) sel

/-- Filter application in the loop's dimension order (lines 53-77); the
`year` dimension reads the derived `startyear` column. -/
def applyFilters (f : FilterSet) (rows : List Norm) : List Norm :=
  applyOne (fun r => r.sous_categorie) f.sous_categorie
    (applyOne (fun r => r.categorie_principale) f.categorie_principale
      (applyOne (fun r => r.acronym) f.acronym
        (applyOne (fun r => r.city) f.city
          (applyOne (fun r => r.name) f.name
            (applyOne (fun r => r.legalbasis) f.legalbasis
              (applyOne (fun r => r.role) f.role
                (applyOne Norm.startyear f.year
                  (applyOne (fun r => r.status) f.status rows))))))))

/-- The specification's row-passing predicate: for every dimension with a
non-empty accepted-value set, the row's value in that dimension's source
column is a member of the set; `year` tests derived `startyear`; a missing
value never passes a non-empty filter. -/
def PassesSpec (f : FilterSet) (r : Norm) : Prop :=
  (f.status ≠ [] → ∃ x, r.status = some x ∧ x ∈ f.status) ∧
  (f.year ≠ [] → ∃ x, r.startyear = some x ∧ x ∈ f.year) ∧
  (f.role ≠ [] → ∃ x, r.role = some x ∧ x ∈ f.role) ∧
  (f.legalbasis ≠ [] → ∃ x, r.legalbasis = some x ∧ x ∈ f.legalbasis) ∧
  (f.name ≠ [] → ∃ x, r.name = some x ∧ x ∈ f.name) ∧
  (f.city ≠ [] → ∃ x, r.city = some x ∧ x ∈ f.city) ∧
  (f.acronym ≠ [] → ∃ x, r.acronym = some x ∧ x ∈ f.acronym) ∧
  (f.categorie_principale ≠ [] →
    ∃ x, r.categorie_principale = some x ∧ x ∈ f.categorie_principale) ∧
  (f.sous_categorie ≠ [] → ∃ x, r.sous_categorie = some x ∧ x ∈ f.sous_categorie)

/-! ### Group-by infrastructure. pandas `groupby` drops missing keys and
emits one output row per distinct key, in ascending key order. -/

def insertLe (le : α → α → Bool) (a : α) : List α → List α
  | [] => [a]
  | b :: t => if le a b then a :: b :: t else b :: insertLe le a t

def sortLe (le : α → α → Bool) : List α → List α
  | [] => []
  | a :: t => insertLe le a (sortLe le t)

def natLe (a b : ℕ) : Bool := decide (a ≤ b)

/-- Ascending lexicographic order on (startyear, categorie) key pairs. -/
def pairLe (a b : ℕ × String) : Bool :=
  decide (a.1 < b.1) || (decide (a.1 = b.1) && (a.2 == b.2 || decide (a.2 < b.2)))

/-- Descending order on occurrence counts (`value_counts` sorts this way). -/
def cntGe (a b : String × ℕ) : Bool := decide (b.2 ≤ a.2)

/-! ### Project aggregation, src/cordis.py lines 80-91. -/

structure Proj where
  id : ℕ
  title : Option String
  totalcost : Option ℚ
  ecmax : Option ℚ
  startdate : Option Date
  enddate : Option Date
deriving DecidableEq

/-- Line 91: `df_proj['startyear'] = df_proj['startdate'].dt.year`. -/
def Proj.startyear (p : Proj) : Option ℕ := p.startdate.map Date.y

/-- pandas `groupby(...).agg(col, 'first')`: first non-missing value. -/
def firstSome (l : List (Option α)) : Option α := (l.filterMap id).head?

def minFold (d : Date) (t : List Date) : Date :=
  t.foldl (fun a b => if natLe a.key b.key then a else b) d

def maxFold (d : Date) (t : List Date) : Date :=
  t.foldl (fun a b => if natLe b.key a.key then a else b) d

/-- pandas `'min'` over a group's non-missing dates. -/
def minKey (l : List Date) : Option Date :=
  match l with
  | [] => none
  | d :: t => some (minFold d t)

/-- pandas `'max'` over a group's non-missing dates. -/
def maxKey (l : List Date) : Option Date :=
  match l with
  | [] => none
  | d :: t => some (maxFold d t)

def aggGroup (i : ℕ) (g : List Norm) : Proj where
  id := i
  title := firstSome (g.map fun r => r.title)
  totalcost := firstSome (g.map fun r => r.totalcost_project)
  ecmax := firstSome (g.map fun r => r.ecmaxcontribution)
  startdate := minKey (g.filterMap fun r => r.startdate)
  enddate := maxKey (g.filterMap fun r => r.enddate)

/-- The distinct non-missing project ids of the filtered set, ascending. -/
def idKeys (rows : List Norm) : List ℕ := sortLe natLe (rows.filterMap fun r => r.id).dedup

/-- Lines 80-90: group the filtered rows by `id` and aggregate
title/totalcost_project/ecmaxcontribution with `'first'`, `startdate` with
`'min'`, `enddate` with `'max'`. -/
def df_proj (rows : List Norm) : List Proj :=
  (idKeys rows).map fun i => aggGroup i (rows.filter fun r => r.id == some i)

/-- A cell value of the aggregate table. -/
inductive Val where
  | n (x : ℕ)
  | q (x : ℚ)
  | s (x : String)
  | d (x : Date)
deriving DecidableEq

/-- Column access on the aggregate table: outer `none` means the named
column does not exist in `df_proj` at all; the inner option is the cell.
The column list is exactly the one built at lines 83-91. -/
def Proj.col (p : Proj) (c : String) : Option (Option Val) :=
  if c = "id" then some (some (Val.n p.id))
  else if c = "title" then some (p.title.map Val.s)
  else if c = "totalcost" then some (p.totalcost.map Val.q)
  else if c = "ecmax" then some (p.ecmax.map Val.q)
  else if c = "startdate" then some (p.startdate.map Val.d)
  else if c = "enddate" then some (p.enddate.map Val.d)
  else if c = "startyear" then some (p.startyear.map Val.n)
  else none

/-- The content-preserving recasting of an already-project-level row into an
aggregate row (what a one-element group aggregates to). -/
def convRow (r : Norm) : Proj where
  id := r.id.getD 0
  title := r.title
  totalcost := r.totalcost_project
  ecmax := r.ecmaxcontribution
  startdate := r.startdate
  enddate := r.enddate

/-! ### Yearly funding, src/cordis.py lines 121-127:
`df_filtered.groupby(['startyear', 'categorie_principale']).ecmaxcontribution.sum()`. -/

/-- The row's group key for the yearly-funding summary; rows missing either
component are dropped by `groupby`. -/
def yearCatKey (r : Norm) : Option (ℕ × String) :=
  match r.startyear, r.categorie_principale with
  | some y, some c => some (y, c)
  | _, _ => none

def yearCatKeys (rows : List Norm) : List (ℕ × String) :=
  sortLe pairLe (rows.filterMap yearCatKey).dedup

/-- The summary table: one row per distinct (startyear, categorie) pair,
carrying the group's `ecmaxcontribution` sum over the filtered rows
(missing contributions are skipped; an all-missing group sums to 0). -/
def df_year_cat (rows : List Norm) : List ((ℕ × String) × ℚ) :=
  (yearCatKeys rows).map fun k =>
    (k, ((rows.filter fun r => yearCatKey r == some k).filterMap fun r =>
      r.ecmaxcontribution).sum)

/-- The funding bucket a given start year receives in a summary table
(missing when the year appears in no summary row). -/
def yearBucket (y : ℕ) (t : List ((ℕ × String) × ℚ)) : Option ℚ :=
  match t.filter fun e => e.1.1 == y with
  | [] => none
  | es => some (es.map (fun e => e.2)).sum

/-! ### Role distribution, src/cordis.py lines 283-284:
`df_filtered.drop_duplicates(['id', 'role'])['role'].value_counts()`. -/

def pairKey (r : Norm) : Option ℕ × Option String := (r.id, r.role)

/-- Model of `drop_duplicates(['id', 'role'])`: keep the first row of each (id, role)
pair, preserving order; missing values compare equal to themselves here. -/
def dedupPairsAux (seen : List (Option ℕ × Option String)) : List Norm → List Norm
  | [] => []
  | r :: t =>
    if pairKey r ∈ seen then dedupPairsAux seen t
    else r :: dedupPairsAux (pairKey r :: seen) t

def dedupPairs (rows : List Norm) : List Norm := dedupPairsAux [] rows

/-- The deduplicated rows' non-missing role values (`value_counts` drops
missing values). -/
def roleVals (rows : List Norm) : List String := (dedupPairs rows).filterMap fun r => r.role

/-- Model of `value_counts()`: occurrence count per distinct role value, sorted by
count descending. -/
def df_role (rows : List Norm) : List (String × ℕ) :=
  sortLe cntGe ((roleVals rows).dedup.map fun v => (v, (roleVals rows).count v))

/-! ### Characterizations used to state the aggregation rules. -/

/-- Holds when `v` is the first non-missing value of `l` (or missing when `l` has
none): some prefix of `l` is all-missing and `v` follows it. -/
def FirstNonMissing (v : Option α) (l : List (Option α)) : Prop :=
  (v = none ∧ ∀ x ∈ l, x = none) ∨
  ∃ t l1 l2, v = some t ∧ l = l1 ++ some t :: l2 ∧ ∀ x ∈ l1, x = none

/-- Holds when `v` is the minimum of the date list `l` (missing iff `l` is empty). -/
def IsMinDate (v : Option Date) (l : List Date) : Prop :=
  (v = none ∧ l = []) ∨ ∃ m, v = some m ∧ m ∈ l ∧ ∀ x ∈ l, m.key ≤ x.key

/-- Holds when `v` is the maximum of the date list `l` (missing iff `l` is empty). -/
def IsMaxDate (v : Option Date) (l : List Date) : Prop :=
  (v = none ∧ l = []) ∨ ∃ m, v = some m ∧ m ∈ l ∧ ∀ x ∈ l, x.key ≤ m.key

/-- Value of the first summary row carrying key `k`. -/
def lookupKey [DecidableEq κ] (k : κ) (t : List (κ × β)) : Option β :=
  (t.find? fun e => e.1 == k).map fun e => e.2

/-! ### Concrete inputs. `scenarioRaw` is the three-row end-to-end scenario
of spec section 8; `scenarioCRaw` is the same with every row carrying the
scientific category "C". -/

def blankRaw : Raw :=
  ⟨none, none, none, none, none, none, none, none, none,
   none, none, none, none, none, none, none, none⟩

def blankNorm : Norm :=
  ⟨none, none, none, none, none, none, none, none, none,
   none, none, none, none, none, none, none, none⟩

def scenRow1 : Raw :=
  { blankRaw with
    id := some 1, role := some "coordinator", status := some "ongoing",
    ecmaxcontribution := some "100,00", startdate := some "2020-01-01" }

def scenRow2 : Raw :=
  { blankRaw with
    id := some 1, role := some "partner", status := some "ongoing",
    ecmaxcontribution := some "100,00", startdate := some "2020-01-01" }

def scenRow3 : Raw :=
  { blankRaw with
    id := some 2, role := some "coordinator", status := some "closed",
    ecmaxcontribution := some "50,00", startdate := some "2021-06-15" }

def scenarioRaw : List Raw := [scenRow1, scenRow2, scenRow3]

def scenarioCRaw : List Raw :=
  [{ scenRow1 with categorie_principale := some "C" },
   { scenRow2 with categorie_principale := some "C" },
   { scenRow3 with categorie_principale := some "C" }]

/-- Two participant rows of one project with distinct `eccontribution`
values (their sum, 30, appears nowhere in the aggregate). -/
def eccRows : List Norm :=
  [{ blankNorm with id := some 1, eccontribution := some 10 },
   { blankNorm with id := some 1, eccontribution := some 20 }]

/-- An already-project-level table (one row per id) NOT sorted by id. -/
def projA : Norm :=
  { blankNorm with
    id := some 2, title := some "beta", totalcost_project := some 5,
    ecmaxcontribution := some 7, startdate := some ⟨2021, 1, 1⟩,
    enddate := some ⟨2022, 2, 2⟩ }

def projB : Norm :=
  { blankNorm with
    id := some 1, title := some "alpha", totalcost_project := some 3,
    ecmaxcontribution := some 4, startdate := some ⟨2019, 6, 30⟩,
    enddate := some ⟨2020, 7, 31⟩ }

def projUnsorted : List Norm := [projA, projB]

def projSorted : List Norm := [projB, projA]

/-- A row whose date, monetary and coordinate cells are all unparsable. -/
def badRaw : Raw :=
  { blankRaw with
    title := some "t", startdate := some "soon", enddate := some "later",
    totalcost_project := some "a lot", ecmaxcontribution := some "1.2.3,4,5",
    eccontribution := some "", neteccontribution := some "12txt",
    geolocation := some "not-a-coord" }

/-- What `badRaw` normalizes to: the row is kept, parsed cells are missing. -/
def badNorm : Norm :=
  { blankNorm with title := some "t", geolocation := some "not-a-coord" }

/-- A row set exercising the monetary formats of the spec's examples. -/
def moneyRaw : Raw :=
  { blankRaw with
    totalcost_project := some "1.234.567,89", ecmaxcontribution := some "500",
    eccontribution := some "100,00", neteccontribution := some "not a number" }

/-- Rows with duplicated ids, missing and non-missing fields, for
exercising the aggregation reductions. -/
def aggRowA : Norm :=
  { blankNorm with id := some 1, startdate := some ⟨2020, 1, 1⟩ }

def aggRowB : Norm :=
  { blankNorm with
    id := some 1, title := some "x", startdate := some ⟨2019, 5, 5⟩,
    enddate := some ⟨2021, 3, 3⟩ }

def aggRowC : Norm :=
  { blankNorm with id := some 2, title := some "y" }

def aggRows : List Norm := [aggRowA, aggRowB, aggRowC]

/-! ## Helper lemmas -/

theorem insertLe_perm (le : α → α → Bool) (a : α) (l : List α) :
    List.Perm (insertLe le a l) (a :: l) := by
  induction l with
  | nil => rfl
  | cons b t ih =>
    simp only [insertLe]
    split
    · rfl
    · exact (ih.cons b).trans (List.Perm.swap a b t)

theorem sortLe_perm (le : α → α → Bool) (l : List α) : List.Perm (sortLe le l) l := by
  induction l with
  | nil => rfl
  | cons a t ih => exact (insertLe_perm le a (sortLe le t)).trans (ih.cons a)

theorem mem_sortLe (le : α → α → Bool) (l : List α) (x : α) :
    x ∈ sortLe le l ↔ x ∈ l :=
  (sortLe_perm le l).mem_iff

theorem nodup_sortLe (le : α → α → Bool) {l : List α} (h : l.Nodup) :
    (sortLe le l).Nodup :=
  (sortLe_perm le l).nodup_iff.mpr h

theorem insertLe_of_forall (le : α → α → Bool) (a : α) (l : List α)
    (h : ∀ b ∈ l, le a b = true) : insertLe le a l = a :: l := by
  cases l with
  | nil => rfl
  | cons b t => simp [insertLe, h b (by simp)]

theorem sortLe_of_pairwise (le : α → α → Bool) (l : List α)
    (h : l.Pairwise fun x y => le x y = true) : sortLe le l = l := by
  induction l with
  | nil => rfl
  | cons a t ih =>
    rw [List.pairwise_cons] at h
    simp only [sortLe, ih h.2]
    exact insertLe_of_forall le a t h.1

theorem lookupKey_map_keys [DecidableEq κ] (f : κ → β) (ks : List κ) (k : κ)
    (hk : k ∈ ks) : lookupKey k (ks.map fun x => (x, f x)) = some (f k) := by
  induction ks with
  | nil => cases hk
  | cons a t ih =>
    by_cases h : a = k
    · subst h
      simp [lookupKey, List.find?]
    · rcases List.mem_cons.mp hk with h' | h'
      · exact absurd h'.symm h
      · simpa [lookupKey, List.find?, beq_eq_false_iff_ne.mpr h] using ih h'

theorem lookupKey_map_keys_none [DecidableEq κ] (f : κ → β) (ks : List κ)
    (k : κ) (hk : k ∉ ks) : lookupKey k (ks.map fun x => (x, f x)) = none := by
  induction ks with
  | nil => rfl
  | cons a t ih =>
    have h1 : a ≠ k := fun h => hk (h ▸ List.mem_cons_self a t)
    have h2 : k ∉ t := fun h => hk (List.mem_cons_of_mem a h)
    simpa [lookupKey, List.find?, beq_eq_false_iff_ne.mpr h1] using ih h2

theorem firstSome_spec (l : List (Option α)) : FirstNonMissing (firstSome l) l := by
  induction l with
  | nil => left; simp [firstSome]
  | cons a t ih =>
    cases a with
    | some x =>
      right
      exact ⟨x, [], t, rfl, rfl, by simp⟩
    | none =>
      have he : firstSome (none :: t) = firstSome t := by simp [firstSome]
      rw [he]
      rcases ih with ⟨h1, h2⟩ | ⟨x, l1, l2, h1, h2, h3⟩
      · left
        refine ⟨h1, ?_⟩
        intro y hy
        rcases List.mem_cons.mp hy with h | h
        · exact h
        · exact h2 y h
      · right
        refine ⟨x, none :: l1, l2, h1, by rw [h2]; rfl, ?_⟩
        intro y hy
        rcases List.mem_cons.mp hy with h | h
        · exact h
        · exact h3 y h

theorem foldl_min_mem (t : List Date) : ∀ d : Date,
    minFold d t = d ∨ minFold d t ∈ t := by
  induction t with
  | nil => intro d; left; rfl
  | cons b t ih =>
    intro d
    simp only [minFold, List.foldl_cons]
    rcases ih (if natLe d.key b.key then d else b) with h | h
    · rw [minFold] at h
      rw [h]
      split
      · left; rfl
      · right; exact List.mem_cons_self b t
    · right; exact List.mem_cons_of_mem b h

theorem foldl_min_le (t : List Date) : ∀ d : Date,
    (minFold d t).key ≤ d.key ∧ ∀ x ∈ t, (minFold d t).key ≤ x.key := by
  induction t with
  | nil => intro d; exact ⟨le_refl _, by simp⟩
  | cons b t ih =>
    intro d
    simp only [minFold, List.foldl_cons]
    obtain ⟨h1, h2⟩ := ih (if natLe d.key b.key then d else b)
    rw [minFold] at h1 h2
    constructor
    · refine h1.trans ?_
      split
      · exact le_refl _
      · next hc =>
        have : ¬ d.key ≤ b.key := by simpa [natLe] using hc
        omega
    · intro x hx
      rcases List.mem_cons.mp hx with h | h
      · subst h
        refine h1.trans ?_
        split
        · next hc => simpa [natLe] using hc
        · exact le_refl _
      · exact h2 x h

theorem minKey_spec (l : List Date) : IsMinDate (minKey l) l := by
  cases l with
  | nil => left; exact ⟨rfl, rfl⟩
  | cons d t =>
    right
    refine ⟨minFold d t, rfl, ?_, ?_⟩
    · rcases foldl_min_mem t d with h | h
      · rw [h]; exact List.mem_cons_self d t
      · exact List.mem_cons_of_mem d h
    · intro x hx
      obtain ⟨h1, h2⟩ := foldl_min_le t d
      rcases List.mem_cons.mp hx with h | h
      · subst h; exact h1
      · exact h2 x h

theorem foldl_max_mem (t : List Date) : ∀ d : Date,
    maxFold d t = d ∨ maxFold d t ∈ t := by
  induction t with
  | nil => intro d; left; rfl
  | cons b t ih =>
    intro d
    simp only [maxFold, List.foldl_cons]
    rcases ih (if natLe b.key d.key then d else b) with h | h
    · rw [maxFold] at h
      rw [h]
      split
      · left; rfl
      · right; exact List.mem_cons_self b t
    · right; exact List.mem_cons_of_mem b h

theorem foldl_max_le (t : List Date) : ∀ d : Date,
    d.key ≤ (maxFold d t).key ∧ ∀ x ∈ t, x.key ≤ (maxFold d t).key := by
  induction t with
  | nil => intro d; exact ⟨le_refl _, by simp⟩
  | cons b t ih =>
    intro d
    simp only [maxFold, List.foldl_cons]
    obtain ⟨h1, h2⟩ := ih (if natLe b.key d.key then d else b)
    rw [maxFold] at h1 h2
    constructor
    · refine le_trans ?_ h1
      split
      · exact le_refl _
      · next hc =>
        have : ¬ b.key ≤ d.key := by simpa [natLe] using hc
        omega
    · intro x hx
      rcases List.mem_cons.mp hx with h | h
      · subst h
        refine le_trans ?_ h1
        split
        · next hc => simpa [natLe] using hc
        · exact le_refl _
      · exact h2 x h

theorem maxKey_spec (l : List Date) : IsMaxDate (maxKey l) l := by
  cases l with
  | nil => left; exact ⟨rfl, rfl⟩
  | cons d t =>
    right
    refine ⟨maxFold d t, rfl, ?_, ?_⟩
    · rcases foldl_max_mem t d with h | h
      · rw [h]; exact List.mem_cons_self d t
      · exact List.mem_cons_of_mem d h
    · intro x hx
      obtain ⟨h1, h2⟩ := foldl_max_le t d
      rcases List.mem_cons.mp hx with h | h
      · subst h; exact h1
      · exact h2 x h

theorem mem_applyOne [DecidableEq α] (get : Norm → Option α) (sel : List α)
    (rows : List Norm) (r : Norm) :
    r ∈ applyOne get sel rows ↔
      r ∈ rows ∧ (sel ≠ [] → ∃ x, get r = some x ∧ x ∈ sel) := by
  by_cases h : sel = []
  · subst h; simp [applyOne]
  · simp only [applyOne, if_neg h, List.mem_filter]
    constructor
    · rintro ⟨h1, h2⟩
      refine ⟨h1, fun _ => ?_⟩
      cases hx : get r with
      | none => rw [hx] at h2; simp [memBool] at h2
      | some x =>
        rw [hx] at h2
        simp only [memBool, decide_eq_true_eq] at h2
        exact ⟨x, rfl, h2⟩
    · rintro ⟨h1, h2⟩
      obtain ⟨x, hx, hmem⟩ := h2 h
      exact ⟨h1, by simp [memBool, hx, hmem]⟩

theorem df_proj_mem (rows : List Norm) (p : Proj) :
    p ∈ df_proj rows ↔
      ∃ i ∈ idKeys rows, p = aggGroup i (rows.filter fun r => r.id == some i) := by
  simp only [df_proj, List.mem_map, eq_comm]

theorem mem_idKeys (rows : List Norm) (i : ℕ) :
    i ∈ idKeys rows ↔ ∃ r ∈ rows, r.id = some i := by
  simp [idKeys, mem_sortLe, List.mem_dedup, List.mem_filterMap]

theorem nodup_idKeys (rows : List Norm) : (idKeys rows).Nodup :=
  nodup_sortLe natLe (List.nodup_dedup _)

theorem mem_yearCatKeys (rows : List Norm) (k : ℕ × String) :
    k ∈ yearCatKeys rows ↔ ∃ r ∈ rows, yearCatKey r = some k := by
  simp [yearCatKeys, mem_sortLe, List.mem_dedup, List.mem_filterMap]

theorem idKeys_eq_of_sorted (rows : List Norm)
    (h2 : (rows.filterMap fun r => r.id).Pairwise (· < ·)) :
    idKeys rows = rows.filterMap fun r => r.id := by
  unfold idKeys
  rw [List.dedup_eq_self.mpr (h2.imp fun h => Nat.ne_of_lt h)]
  exact sortLe_of_pairwise natLe _ (h2.imp fun h => by simp [natLe]; omega)

theorem aggGroup_singleton (r : Norm) (i : ℕ) (h : r.id = some i) :
    aggGroup i [r] = convRow r := by
  have hid : r.id.getD 0 = i := by rw [h]; rfl
  cases ht : r.title <;> cases htc : r.totalcost_project <;>
    cases he : r.ecmaxcontribution <;> cases hs : r.startdate <;> cases hd : r.enddate <;>
      simp [aggGroup, convRow, firstSome, minKey, minFold, maxKey, maxFold,
        hid, ht, htc, he, hs, hd]

theorem dedupPairsAux_spec (l : List Norm) :
    ∀ seen : List (Option ℕ × Option String),
      ((dedupPairsAux seen l).map pairKey).Nodup ∧
      ∀ k, k ∈ (dedupPairsAux seen l).map pairKey ↔ k ∈ l.map pairKey ∧ k ∉ seen := by
  induction l with
  | nil => intro seen; simp [dedupPairsAux]
  | cons r t ih =>
    intro seen
    by_cases h : pairKey r ∈ seen
    · rw [dedupPairsAux, if_pos h]
      obtain ⟨ihn, ihm⟩ := ih seen
      refine ⟨ihn, fun k => ?_⟩
      rw [ihm k]
      constructor
      · rintro ⟨hk, hns⟩
        exact ⟨List.mem_cons_of_mem _ hk, hns⟩
      · rintro ⟨hk, hns⟩
        rcases List.mem_cons.mp hk with hk | hk
        · exact absurd (hk ▸ h) hns
        · exact ⟨hk, hns⟩
    · rw [dedupPairsAux, if_neg h]
      obtain ⟨ihn, ihm⟩ := ih (pairKey r :: seen)
      constructor
      · rw [List.map_cons, List.nodup_cons]
        refine ⟨fun hc => ?_, ihn⟩
        exact ((ihm (pairKey r)).mp hc).2 (List.mem_cons_self _ _)
      · intro k
        have hthis := ihm k
        simp only [List.map_cons, List.mem_cons] at hthis ⊢
        constructor
        · rintro (hk | hk)
          · exact ⟨Or.inl hk, hk ▸ h⟩
          · obtain ⟨hk1, hk2⟩ := hthis.mp hk
            exact ⟨Or.inr hk1, fun hc => hk2 (Or.inr hc)⟩
        · rintro ⟨hk | hk, hns⟩
          · exact Or.inl hk
          · by_cases hkr : k = pairKey r
            · exact Or.inl hkr
            · refine Or.inr (hthis.mpr ⟨hk, fun hc => ?_⟩)
              rcases hc with hc | hc
              · exact hkr hc
              · exact hns hc

theorem dedupPairs_length (rows : List Norm) :
    (dedupPairs rows).length = ((rows.map pairKey).dedup).length := by
  obtain ⟨hn, hm⟩ := dedupPairsAux_spec rows ([] : List (Option ℕ × Option String))
  rw [dedupPairs]
  have hperm : List.Perm ((dedupPairsAux [] rows).map pairKey) ((rows.map pairKey).dedup) := by
    rw [List.perm_ext_iff_of_nodup hn (List.nodup_dedup _)]
    intro k
    rw [List.mem_dedup]
    simpa using hm k
  calc (dedupPairsAux [] rows).length = ((dedupPairsAux [] rows).map pairKey).length :=
        (List.length_map _ _).symm
    _ = ((rows.map pairKey).dedup).length := hperm.length_eq

theorem sum_map_add_nat (f g : α → ℕ) (l : List α) :
    (l.map fun v => f v + g v).sum = (l.map f).sum + (l.map g).sum := by
  induction l with
  | nil => rfl
  | cons a t ih => simp [ih]; omega

theorem sum_map_indicator [DecidableEq α] (a : α) (l : List α) (hn : l.Nodup) :
    (l.map fun v => if v = a then 1 else 0).sum = if a ∈ l then 1 else 0 := by
  induction l with
  | nil => rfl
  | cons b t ih =>
    rw [List.nodup_cons] at hn
    by_cases hb : b = a
    · subst hb
      simp only [List.map_cons, List.sum_cons, if_pos rfl, ih hn.2]
      simp [hn.1]
    · simp only [List.map_cons, List.sum_cons, if_neg hb, ih hn.2, List.mem_cons]
      have hab : ¬ a = b := fun hc => hb hc.symm
      simp [hab]

theorem sum_counts_dedup [DecidableEq α] (l : List α) :
    (l.dedup.map fun v => l.count v).sum = l.length := by
  induction l with
  | nil => rfl
  | cons a t ih =>
    have hcnt : ∀ v : α, (a :: t).count v = t.count v + if v = a then 1 else 0 := by
      intro v
      by_cases hv : v = a
      · subst hv; simp [List.count_cons]
      · simp [List.count_cons, hv, Ne.symm hv]
    by_cases h : a ∈ t
    · rw [List.dedup_cons_of_mem h]
      have hsplit : (t.dedup.map fun v => (a :: t).count v).sum =
          (t.dedup.map fun v => t.count v).sum +
          (t.dedup.map fun v => if v = a then 1 else 0).sum := by
        rw [← sum_map_add_nat]
        exact congrArg List.sum (List.map_congr_left fun v _ => hcnt v)
      rw [hsplit, ih, sum_map_indicator a t.dedup (List.nodup_dedup t),
        if_pos (List.mem_dedup.mpr h)]
      simp
    · rw [List.dedup_cons_of_not_mem h, List.map_cons, List.sum_cons]
      have hsplit : (t.dedup.map fun v => (a :: t).count v).sum =
          (t.dedup.map fun v => t.count v).sum +
          (t.dedup.map fun v => if v = a then 1 else 0).sum := by
        rw [← sum_map_add_nat]
        exact congrArg List.sum (List.map_congr_left fun v _ => hcnt v)
      rw [hsplit, ih, sum_map_indicator a t.dedup (List.nodup_dedup t)]
      have hna : a ∉ t.dedup := fun hc => h (List.mem_dedup.mp hc)
      rw [if_neg hna, hcnt a, if_pos rfl, List.count_eq_zero_of_not_mem h]
      simp only [List.length_cons]
      omega

theorem splitChar_get_zero (sep : Char) (cs : List Char) :
    (splitChar sep cs).get? 0 = some (cs.takeWhile (· ≠ sep)) := by
  induction cs with
  | nil => rfl
  | cons c t ih =>
    cases hsp : splitChar sep t with
    | nil => rw [hsp] at ih; cases ih
    | cons h r =>
      rw [hsp] at ih
      simp only [splitChar, hsp]
      by_cases hc : c = sep
      · subst hc
        simp [List.takeWhile_cons]
      · simp only [if_neg hc, List.takeWhile_cons]
        have hd : decide (c ≠ sep) = true := by simp [hc]
        rw [hd]
        simp only [List.get?] at ih ⊢
        rw [Option.some_inj.mp ih]
        simp

theorem splitChar_get_one (sep : Char) (cs : List Char) :
    (splitChar sep cs).get? 1 =
      (match cs.dropWhile (· ≠ sep) with
       | [] => none
       | _ :: t => some (t.takeWhile (· ≠ sep))) := by
  induction cs with
  | nil => rfl
  | cons c t ih =>
    cases hsp : splitChar sep t with
    | nil =>
      have := splitChar_get_zero sep t
      rw [hsp] at this
      cases this
    | cons h r =>
      simp only [splitChar, hsp]
      by_cases hc : c = sep
      · have hz := splitChar_get_zero sep t
        rw [hsp] at hz
        simp only [List.get?] at hz
        simp only [if_pos hc, List.dropWhile_cons]
        have hd : decide (c ≠ sep) = false := by simp [hc]
        rw [hd]
        simp only [List.get?]
        exact hz
      · rw [hsp] at ih
        simp only [if_neg hc, List.dropWhile_cons]
        have hd : decide (c ≠ sep) = true := by simp [hc]
        rw [hd]
        simp only [List.get?] at ih ⊢
        exact ih

theorem coordFrag_zero (s : String) : coordFrag (some s) 0 = some (beforeFirstComma s) := by
  simp only [coordFrag, Option.bind, geoParts, List.get?_map, splitChar_get_zero]
  rfl

theorem coordFrag_one (s : String) : coordFrag (some s) 1 = betweenCommas s := by
  simp only [coordFrag, Option.bind, geoParts, List.get?_map, splitChar_get_one]
  rw [betweenCommas]
  cases s.data.dropWhile (· ≠ ',') with
  | nil => rfl
  | cons c t => rfl

/-! ## Claim theorems -/

/-- C1 (counterexample): on the three-row scenario of spec section 8 with no
filters, the yearly-funding summary the code computes is empty (every row's
`categorie_principale` is missing, and the group-by key includes it), so the
2020 bucket is not 100.0 as the claim states. -/
theorem yearly_funding_counterexample :
    df_year_cat (applyFilters emptyFilters (normalize scenarioRaw)) = [] ∧
    yearBucket 2020 (df_year_cat (applyFilters emptyFilters (normalize scenarioRaw))) ≠
      some 100 := by
  decide

/-- C1 (amended): the yearly-funding summary is computed from the FILTERED
participant-level rows (not from the project aggregate), grouped by the pair
(start_year, categorie_principale); each bucket is the `ecmaxcontribution`
sum over all filtered rows with that key pair, so duplicated participant
rows of one project contribute once per row; rows missing either key
component are excluded. On the section-8 scenario the summary is empty, and
with every row carrying category "C" it is
((2020, "C"), 200.0), ((2021, "C"), 50.0). -/
theorem yearly_funding_semantics :
    (∀ (rows : List Norm) (k : ℕ × String), k ∈ yearCatKeys rows →
      lookupKey k (df_year_cat rows) =
        some (((rows.filter fun r => yearCatKey r == some k).filterMap fun r =>
          r.ecmaxcontribution).sum)) ∧
    (∀ (rows : List Norm) (k : ℕ × String), k ∉ yearCatKeys rows →
      lookupKey k (df_year_cat rows) = none) ∧
    (∀ (rows : List Norm) (k : ℕ × String),
      k ∈ yearCatKeys rows ↔ ∃ r ∈ rows, yearCatKey r = some k) ∧
    df_year_cat (applyFilters emptyFilters (normalize scenarioRaw)) = [] ∧
    df_year_cat (applyFilters emptyFilters (normalize scenarioCRaw)) =
      [((2020, "C"), 200), ((2021, "C"), 50)] := by
  have h5 : df_year_cat (applyFilters emptyFilters (normalize scenarioCRaw)) =
      [((2020, "C"), [((100 : ℚ) + 0 / 10 ^ 2), ((100 : ℚ) + 0 / 10 ^ 2)].sum),
       ((2021, "C"), [((50 : ℚ) + 0 / 10 ^ 2)].sum)] := rfl
  refine ⟨?_, ?_, ?_, by decide, by rw [h5]; norm_num⟩
  · intro rows k hk
    exact lookupKey_map_keys _ (yearCatKeys rows) k hk
  · intro rows k hk
    exact lookupKey_map_keys_none _ (yearCatKeys rows) k hk
  · intro rows k
    exact mem_yearCatKeys rows k

/-- C1 (witness): the amended lookup rule evaluated on the concrete
scenario with category "C". -/
theorem yearly_funding_semantics_witness :
    lookupKey ((2020 : ℕ), "C")
      (df_year_cat (applyFilters emptyFilters (normalize scenarioCRaw))) = some 200 := by
  have h := yearly_funding_semantics.1
    (applyFilters emptyFilters (normalize scenarioCRaw)) ((2020 : ℕ), "C") (by decide)
  rw [h]
  have hl : (((applyFilters emptyFilters (normalize scenarioCRaw)).filter fun r =>
      yearCatKey r == some ((2020 : ℕ), "C")).filterMap fun r => r.ecmaxcontribution) =
      [((100 : ℚ) + 0 / 10 ^ 2), ((100 : ℚ) + 0 / 10 ^ 2)] := rfl
  rw [hl]
  norm_num

/-- C2 (counterexample): for the two-row input `eccRows` (one project, two
participant contributions 10 and 20), no row of the project aggregate
carries an `eccontribution` cell at all, let alone the sum 30. -/
theorem eccontribution_sum_counterexample :
    ¬ ∀ p ∈ df_proj eccRows, ∃ v : ℚ,
        p.col "eccontribution" = some (some (Val.q v)) ∧
        v = ((eccRows.filter fun r => r.id == some p.id).filterMap fun r =>
          r.eccontribution).sum := by
  intro hcl
  obtain ⟨v, hv, _⟩ :=
    hcl (aggGroup 1 (eccRows.filter fun r => r.id == some 1)) (by decide)
  have hnone :
      (aggGroup 1 (eccRows.filter fun r => r.id == some 1)).col "eccontribution" =
        none := rfl
  rw [hnone] at hv
  exact Option.noConfusion hv

/-- C2 (amended): the project aggregate built at lines 80-91 has exactly the
columns id, title, totalcost, ecmax, startdate, enddate, startyear;
`eccontribution` is not aggregated (neither summed nor taken first) and is
absent from every aggregate row. -/
theorem proj_aggregate_has_no_eccontribution (rows : List Norm) (p : Proj)
    (_hp : p ∈ df_proj rows) :
    p.col "eccontribution" = none ∧
    ∀ c : String, (p.col c).isSome ↔
      c ∈ ["id", "title", "totalcost", "ecmax", "startdate", "enddate", "startyear"] := by
  refine ⟨rfl, ?_⟩
  intro c
  simp only [Proj.col]
  split_ifs with h1 h2 h3 h4 h5 h6 h7 <;> simp_all

/-- C2 (witness): the amended column rule evaluated on the concrete
aggregate of `eccRows`. -/
theorem proj_aggregate_has_no_eccontribution_witness :
    (aggGroup 1 (eccRows.filter fun r => r.id == some 1)).col "eccontribution" = none :=
  (proj_aggregate_has_no_eccontribution eccRows
    (aggGroup 1 (eccRows.filter fun r => r.id == some 1)) (by decide)).1

/-- C3 (counterexample): on the cell `"1,2,3"` the code's `lon` is 2 (the
text between the first and second commas), not the parse of everything
after the first comma, which would be missing since `"2,3"` is not a
decimal. -/
theorem geolocation_lon_counterexample :
    lonOf (some "1,2,3") = some 2 ∧
    afterFirstComma "1,2,3" = some "2,3" ∧
    parseDecStr "2,3" = none ∧
    ¬ lonOf (some "1,2,3") = (afterFirstComma "1,2,3").bind parseDecStr := by
  decide

/-- C3 (amended): the geolocation cell is split at EVERY comma; `lat` parses
the text before the first comma and `lon` parses the text between the first
and second commas (missing when there is no comma), each fragment
independently becoming missing on parse failure; `"48.85,2.35"` still
yields lat 48.85 and lon 2.35, and `"not-a-coord"` yields missing/missing. -/
theorem geolocation_split_per_fragment :
    (∀ s : String, latOf (some s) = parseDecStr (beforeFirstComma s)) ∧
    (∀ s : String, lonOf (some s) = (betweenCommas s).bind parseDecStr) ∧
    latOf (some "48.85,2.35") = some 48.85 ∧
    lonOf (some "48.85,2.35") = some 2.35 ∧
    latOf (some "not-a-coord") = none ∧
    lonOf (some "not-a-coord") = none := by
  have ha : latOf (some "48.85,2.35") = some ((48 : ℚ) + (85 : ℚ) / 10 ^ 2) := rfl
  have hb : lonOf (some "48.85,2.35") = some ((2 : ℚ) + (35 : ℚ) / 10 ^ 2) := rfl
  refine ⟨?_, ?_, by rw [ha]; norm_num, by rw [hb]; norm_num, by decide, by decide⟩
  · intro s
    rw [latOf, coordFrag_zero]
    rfl
  · intro s
    rw [lonOf, coordFrag_one]

/-- C4: project aggregation groups the filtered rows by project identifier:
the output has one row per distinct (non-missing) identifier of the
filtered set, and on each group title, totalcost and ecmax are the first
non-missing values while startdate is the minimum and enddate the maximum
across the group's rows. -/
theorem proj_aggregation_rules (rows : List Norm) :
    ((df_proj rows).map Proj.id).Nodup ∧
    (∀ i : ℕ, (∃ p ∈ df_proj rows, p.id = i) ↔ ∃ r ∈ rows, r.id = some i) ∧
    ∀ p ∈ df_proj rows,
      FirstNonMissing p.title
        ((rows.filter fun r => r.id == some p.id).map fun r => r.title) ∧
      FirstNonMissing p.totalcost
        ((rows.filter fun r => r.id == some p.id).map fun r => r.totalcost_project) ∧
      FirstNonMissing p.ecmax
        ((rows.filter fun r => r.id == some p.id).map fun r => r.ecmaxcontribution) ∧
      IsMinDate p.startdate
        ((rows.filter fun r => r.id == some p.id).filterMap fun r => r.startdate) ∧
      IsMaxDate p.enddate
        ((rows.filter fun r => r.id == some p.id).filterMap fun r => r.enddate) := by
  refine ⟨?_, ?_, ?_⟩
  · have hmap : (df_proj rows).map Proj.id = idKeys rows := by
      rw [df_proj, List.map_map]
      exact List.map_id _
    rw [hmap]
    exact nodup_idKeys rows
  · intro i
    constructor
    · rintro ⟨p, hp, hid⟩
      obtain ⟨j, hj, rfl⟩ := (df_proj_mem rows p).mp hp
      exact (mem_idKeys rows i).mp (hid ▸ hj)
    · rintro ⟨r, hr, hid⟩
      have hi : i ∈ idKeys rows := (mem_idKeys rows i).mpr ⟨r, hr, hid⟩
      exact ⟨aggGroup i (rows.filter fun r => r.id == some i),
        (df_proj_mem rows _).mpr ⟨i, hi, rfl⟩, rfl⟩
  · intro p hp
    obtain ⟨i, hi, rfl⟩ := (df_proj_mem rows p).mp hp
    exact ⟨firstSome_spec _, firstSome_spec _, firstSome_spec _,
      minKey_spec _, maxKey_spec _⟩

/-- C4 (witness): the reduction rules evaluated on the concrete row set
`aggRows` at the aggregate row of project 1. -/
theorem proj_aggregation_rules_witness :
    FirstNonMissing (aggGroup 1 (aggRows.filter fun r => r.id == some 1)).title
      ((aggRows.filter fun r =>
        r.id == some (aggGroup 1 (aggRows.filter fun r => r.id == some 1)).id).map
          fun r => r.title) :=
  ((proj_aggregation_rules aggRows).2.2
    (aggGroup 1 (aggRows.filter fun r => r.id == some 1)) (by decide)).1

/-- C5: a row is kept by the filter pass exactly when, for every dimension
with a non-empty accepted set, its (non-missing) value in the dimension's
source column belongs to the set, the year dimension reading the derived
startyear; an all-empty FilterSet is a no-op, and restricting status to a
value carried by no row yields the empty table. -/
theorem filter_semantics :
    (∀ (f : FilterSet) (rows : List Norm) (r : Norm),
      r ∈ applyFilters f rows ↔ r ∈ rows ∧ PassesSpec f r) ∧
    (∀ rows : List Norm, applyFilters emptyFilters rows = rows) ∧
    (∀ (rows : List Norm) (v : String), (∀ r ∈ rows, r.status ≠ some v) →
      applyFilters (statusOnly v) rows = []) := by
  refine ⟨?_, ?_, ?_⟩
  · intro f rows r
    simp only [applyFilters, mem_applyOne, PassesSpec]
    tauto
  · intro rows
    rfl
  · intro rows v h
    have hred : applyFilters (statusOnly v) rows =
        rows.filter fun r => memBool r.status [v] := rfl
    rw [hred]
    refine List.filter_eq_nil_iff.mpr fun r hr => ?_
    cases hs : r.status with
    | none => simp [memBool, hs]
    | some x =>
      have hx : ¬ x = v := fun hc => h r hr (by rw [hs, hc])
      simp [memBool, hs, hx]

/-- C5 (witness): the empty-result rule evaluated concretely: no row of the
normalized scenario has status "cancelled". -/
theorem filter_semantics_witness :
    applyFilters (statusOnly "cancelled") (normalize scenarioRaw) = [] :=
  filter_semantics.2.2 (normalize scenarioRaw) "cancelled" (by decide)

/-- C6: monetary coercion removes every '.', replaces every ',' by '.', and
parses the result as a decimal, storing missing on failure: on one row,
"1.234.567,89" gives 1234567.89, "500" gives 500, "100,00" gives 100, and
an unparsable cell gives missing. -/
theorem monetary_coercion_examples :
    (normalizeRow moneyRaw).totalcost_project = some 1234567.89 ∧
    (normalizeRow moneyRaw).ecmaxcontribution = some 500 ∧
    (normalizeRow moneyRaw).eccontribution = some 100 ∧
    (normalizeRow moneyRaw).neteccontribution = none ∧
    moneyParse "1.234.567,89" = some 1234567.89 ∧
    moneyParse "500" = some 500 := by
  have h1 : (normalizeRow moneyRaw).totalcost_project =
      some ((1234567 : ℚ) + (89 : ℚ) / 10 ^ 2) := rfl
  have h2 : (normalizeRow moneyRaw).eccontribution =
      some ((100 : ℚ) + (0 : ℚ) / 10 ^ 2) := rfl
  have h3 : moneyParse "1.234.567,89" =
      some ((1234567 : ℚ) + (89 : ℚ) / 10 ^ 2) := rfl
  refine ⟨by rw [h1]; norm_num, by decide, by rw [h2]; norm_num, by decide,
    by rw [h3]; norm_num, by decide⟩

/-- C7: normalization is a per-row map: it preserves row count and row
order, and a row whose date, monetary and coordinate cells are all
unparsable is kept, its parsed cells becoming missing. -/
theorem normalization_preserves_rows :
    (∀ rs : List Raw, (normalize rs).length = rs.length) ∧
    (∀ (rs : List Raw) (i : ℕ), (normalize rs).get? i = (rs.get? i).map normalizeRow) ∧
    normalize [badRaw] = [badNorm] ∧
    latOf badNorm.geolocation = none ∧ lonOf badNorm.geolocation = none := by
  refine ⟨?_, ?_, by decide, by decide, by decide⟩
  · intro rs
    simp [normalize]
  · intro rs i
    simp [normalize, List.get?_map]

/-- C8: the role distribution first deduplicates the filtered rows on the
(id, role) pair and then counts per role value, so the total of its counts
never exceeds the number of distinct (id, role) pairs of the filtered set. -/
theorem role_distribution_bound (rows : List Norm) :
    ((df_role rows).map fun e => e.2).sum ≤ ((rows.map pairKey).dedup).length := by
  have h1 : ((df_role rows).map fun e => e.2).sum =
      (((roleVals rows).dedup.map fun v => (v, (roleVals rows).count v)).map
        fun e => e.2).sum :=
    ((sortLe_perm cntGe _).map fun e => e.2).sum_eq
  have h2 : (((roleVals rows).dedup.map fun v => (v, (roleVals rows).count v)).map
      fun e => e.2) = (roleVals rows).dedup.map fun v => (roleVals rows).count v := by
    rw [List.map_map]
    rfl
  rw [h1, h2, sum_counts_dedup]
  calc (roleVals rows).length ≤ (dedupPairs rows).length :=
        List.length_filterMap_le _ _
    _ = ((rows.map pairKey).dedup).length := dedupPairs_length rows

/-- C9 (counterexample): aggregating the already-project-level table
`projUnsorted` (ids 2 then 1, one row each) does not return the table
itself: `groupby` sorts by id, so the rows come back in the order 1, 2. -/
theorem proj_idempotence_counterexample :
    df_proj projUnsorted = [convRow projB, convRow projA] ∧
    projUnsorted.map convRow = [convRow projA, convRow projB] ∧
    ¬ df_proj projUnsorted = projUnsorted.map convRow := by
  decide

/-- C9 (amended): on a project-level table (every row has an id, all ids
distinct) that is moreover already sorted by id, project aggregation
returns the table itself (each one-element group reduces to its row, since
first/min/max over a singleton are the identity). -/
theorem proj_aggregation_idempotent_sorted :
    ∀ rows : List Norm, (∀ r ∈ rows, r.id ≠ none) →
    ((rows.filterMap fun r => r.id).Pairwise (· < ·)) →
    df_proj rows = rows.map convRow := by
  intro rows
  induction rows with
  | nil => intro _ _; rfl
  | cons r t ih =>
    intro h1 h2
    obtain ⟨i, hi⟩ := Option.ne_none_iff_exists'.mp (h1 r (List.mem_cons_self r t))
    have hfm : (r :: t).filterMap (fun x => x.id) = i :: t.filterMap (fun x => x.id) := by
      simp [List.filterMap_cons, hi]
    have hkeys : idKeys (r :: t) = i :: t.filterMap (fun x => x.id) := by
      rw [idKeys_eq_of_sorted _ h2, hfm]
    have h2' := h2
    rw [hfm, List.pairwise_cons] at h2'
    have hne : ∀ s ∈ t, ¬ s.id = some i := by
      intro s hs hcon
      have hmem : i ∈ t.filterMap (fun x => x.id) := List.mem_filterMap.mpr ⟨s, hs, hcon⟩
      exact absurd (h2'.1 i hmem) (lt_irrefl i)
    have hgi : (r :: t).filter (fun x => x.id == some i) = [r] := by
      rw [List.filter_cons, if_pos (by simp [hi])]
      have : t.filter (fun x => x.id == some i) = [] :=
        List.filter_eq_nil_iff.mpr fun s hs => by simp [hne s hs]
      rw [this]
    have hgj : ∀ j ∈ t.filterMap (fun x => x.id),
        (r :: t).filter (fun x => x.id == some j) =
          t.filter (fun x => x.id == some j) := by
      intro j hj
      have hij : ¬ (r.id == some j) = true := by
        simp only [hi, beq_iff_eq, Option.some_inj]
        intro hcon
        exact absurd (hcon ▸ h2'.1 j hj) (lt_irrefl i)
      rw [List.filter_cons, if_neg hij]
    rw [df_proj, hkeys, List.map_cons, List.map_cons]
    rw [show ((r :: t).filter fun x => x.id == some i) = [r] from hgi]
    rw [aggGroup_singleton r i hi]
    congr 1
    calc (t.filterMap fun x => x.id).map
          (fun k => aggGroup k ((r :: t).filter fun x => x.id == some k))
        = (t.filterMap fun x => x.id).map
            (fun k => aggGroup k (t.filter fun x => x.id == some k)) :=
          List.map_congr_left fun j hj => by rw [hgj j hj]
      _ = df_proj t := by rw [df_proj, idKeys_eq_of_sorted t h2'.2]
      _ = t.map convRow := ih (fun s hs => h1 s (List.mem_cons_of_mem r hs)) h2'.2

/-- C9 (witness): the amended idempotence rule evaluated on the concrete
sorted project-level table `projSorted`. -/
theorem proj_aggregation_idempotent_sorted_witness :
    df_proj projSorted = projSorted.map convRow :=
  proj_aggregation_idempotent_sorted projSorted (by decide) (by decide)

/-- C10: the monetary loop stringifies cells before the separator rewrite
(`astype(str)`), so a cell holding the number 500.5 reaches the rewrite as
"500.5", loses its dot, and parses as 5005, not 500.5; a cell rendered
without separators ("500") and a European-formatted text ("1.234,50") keep
their value. -/
theorem monetary_stringify_dot_removal :
    moneyParse "500.5" = some 5005 ∧
    ¬ (5005 : ℚ) = 500.5 ∧
    moneyParse "500" = some 500 ∧
    moneyParse "1.234,50" = some 1234.5 := by
  have h4 : moneyParse "1.234,50" = some ((1234 : ℚ) + (50 : ℚ) / 10 ^ 2) := rfl
  refine ⟨by decide, by norm_num, by decide, by rw [h4]; norm_num⟩

end Cordis
